import Mathlib

/-
Verification of the lag-correlation and significance engine of the
ftrt-cambrian-correlation repository, together with the Timeline display
component. The engine itself (EventSeries Builder, Lag Correlation Analyzer,
Significance Tester, Cluster Detector, Report Assembler) is not present in
the repository sources, which contain only the visualization layer; the
engine definitions below are therefore modelled from the specification,
while the Timeline tooltip model is taken from
frontend/src/components/CorrelationChart.js (Timeline component).
-/

namespace FtrtCambrian

/-- Modelled from the spec: an atomic input event of one category.
Only the fields used in computation are carried (timestamp on a single
linear axis, non-negative magnitude used as signal weight). -/
structure Event where
  timestamp : ℚ
  magnitude : ℚ
deriving DecidableEq

/-- Modelled from the spec: the requested lag range, with fields min, max
and step, in the same unit as event timestamps. -/
structure LagRange where
  min : ℚ
  max : ℚ
  step : ℚ
deriving DecidableEq

/-- Modelled from the spec: the request handed to the engine as a plain
parameter set. -/
structure Request where
  cosmic_events : List Event
  evolutionary_events : List Event
  lag_range : LagRange
  significance_threshold : Option ℚ
  permutation_count : ℤ
  random_seed : Option ℕ

/-- Modelled from the spec: the error taxonomy of the engine. -/
inductive EngineError where
  | insufficientData : EngineError
  | invalidRange : EngineError
deriving DecidableEq

/-- Modelled from the spec: one result per evaluated lag offset. -/
structure LagResult where
  time_lag_days : ℚ
  correlation_coefficient : ℝ
  p_value : ℚ
  significant : Bool

/-- Modelled from the spec: a detected co-occurrence of one cosmic and one
evolutionary event, with the observed offset and its supporting lag. -/
structure Cluster where
  cosmic_event : Event
  evolutionary_event : Event
  offset : ℚ
  supporting_lag : ℚ
deriving DecidableEq

/-- Modelled from the spec: summary statistics of a response. -/
structure Summary where
  max_abs_significant_correlation : Option ℝ
  significant_lag_count : ℕ

/-- Modelled from the spec: the response shape consumed by the
visualization layer. -/
structure Response where
  correlation_results : List LagResult
  clusters : List Cluster
  summary : Summary

/-! ### Descriptive statistics over rational samples -/

/-- Mean of a list of rationals (0 on the empty list, as division by the
zero length). -/
def meanQ (l : List ℚ) : ℚ := l.sum / l.length

/-- Sum of products of centered coordinates of a list of sample pairs:
the covariance numerator of the Pearson coefficient. -/
def covQ (ps : List (ℚ × ℚ)) : ℚ :=
  (ps.map (fun p => (p.1 - meanQ (ps.map Prod.fst)) * (p.2 - meanQ (ps.map Prod.snd)))).sum

/-- Sum of squared deviations of the first coordinates. -/
def varFst (ps : List (ℚ × ℚ)) : ℚ :=
  (ps.map (fun p => (p.1 - meanQ (ps.map Prod.fst)) ^ 2)).sum

/-- Sum of squared deviations of the second coordinates. -/
def varSnd (ps : List (ℚ × ℚ)) : ℚ :=
  (ps.map (fun p => (p.2 - meanQ (ps.map Prod.snd)) ^ 2)).sum

/-- Squared Pearson correlation coefficient of a list of sample pairs, a
rational number; 0 when either coordinate has zero variance. -/
def r2Q (ps : List (ℚ × ℚ)) : ℚ :=
  if varFst ps = 0 ∨ varSnd ps = 0 then 0 else covQ ps ^ 2 / (varFst ps * varSnd ps)

/-- Pearson correlation coefficient of a list of sample pairs, defined as 0
when either coordinate has zero variance (the degenerate convention of the
analyzer). -/
noncomputable def pearson (ps : List (ℚ × ℚ)) : ℝ :=
  if varFst ps = 0 ∨ varSnd ps = 0 then 0
  else (covQ ps : ℝ) / (Real.sqrt (varFst ps) * Real.sqrt (varSnd ps))

/-- Sum of a mapped list as a sum over its index type. -/
lemma list_sum_map_eq_fin_sum (l : List ℚ) (f : ℚ → ℚ) :
    (l.map f).sum = ∑ i : Fin l.length, f (l.get i) := by
  induction l with
  | nil => simp
  | cons a t ih =>
    simp only [List.map_cons, List.sum_cons, List.length_cons, Fin.sum_univ_succ]
    rw [ih]; rfl

/-- Sum of a mapped list of pairs as a sum over its index type. -/
lemma list_sum_map_eq_fin_sum_pairs (l : List (ℚ × ℚ)) (f : ℚ × ℚ → ℚ) :
    (l.map f).sum = ∑ i : Fin l.length, f (l.get i) := by
  induction l with
  | nil => simp
  | cons a t ih =>
    simp only [List.map_cons, List.sum_cons, List.length_cons, Fin.sum_univ_succ]
    rw [ih]; rfl

/-- Cauchy-Schwarz inequality for the centered sums: the squared covariance
numerator is bounded by the product of the squared-deviation sums. -/
lemma covQ_sq_le_varFst_mul_varSnd (ps : List (ℚ × ℚ)) :
    covQ ps ^ 2 ≤ varFst ps * varSnd ps := by
  have hc := list_sum_map_eq_fin_sum_pairs ps
    (fun p => (p.1 - meanQ (ps.map Prod.fst)) * (p.2 - meanQ (ps.map Prod.snd)))
  have hx := list_sum_map_eq_fin_sum_pairs ps
    (fun p => (p.1 - meanQ (ps.map Prod.fst)) ^ 2)
  have hy := list_sum_map_eq_fin_sum_pairs ps
    (fun p => (p.2 - meanQ (ps.map Prod.snd)) ^ 2)
  rw [covQ, hc, varFst, hx, varSnd, hy]
  exact Finset.sum_mul_sq_le_sq_mul_sq Finset.univ
    (fun i => (ps.get i).1 - meanQ (ps.map Prod.fst))
    (fun i => (ps.get i).2 - meanQ (ps.map Prod.snd))

/-- Sums of squared deviations are non-negative. -/
lemma varFst_nonneg (ps : List (ℚ × ℚ)) : 0 ≤ varFst ps := by
  refine List.sum_nonneg ?_
  intro x hx
  obtain ⟨p, _, rfl⟩ := List.mem_map.mp hx
  positivity

/-- Sums of squared deviations are non-negative. -/
lemma varSnd_nonneg (ps : List (ℚ × ℚ)) : 0 ≤ varSnd ps := by
  refine List.sum_nonneg ?_
  intro x hx
  obtain ⟨p, _, rfl⟩ := List.mem_map.mp hx
  positivity

/-- The squared Pearson coefficient is non-negative. -/
lemma r2Q_nonneg (ps : List (ℚ × ℚ)) : 0 ≤ r2Q ps := by
  unfold r2Q
  split
  · exact le_refl 0
  · rename_i h
    push_neg at h
    have h1 := lt_of_le_of_ne (varFst_nonneg ps) (Ne.symm h.1)
    have h2 := lt_of_le_of_ne (varSnd_nonneg ps) (Ne.symm h.2)
    positivity

/-- The squared Pearson coefficient is at most 1. -/
lemma r2Q_le_one (ps : List (ℚ × ℚ)) : r2Q ps ≤ 1 := by
  unfold r2Q
  split
  · exact zero_le_one
  · rename_i h
    push_neg at h
    have h1 := lt_of_le_of_ne (varFst_nonneg ps) (Ne.symm h.1)
    have h2 := lt_of_le_of_ne (varSnd_nonneg ps) (Ne.symm h.2)
    rw [div_le_one (by positivity)]
    exact covQ_sq_le_varFst_mul_varSnd ps

/-- Absolute value of the Pearson coefficient, expressed through its
rational square. -/
lemma abs_pearson_eq_sqrt_r2Q (ps : List (ℚ × ℚ)) :
    |pearson ps| = Real.sqrt (r2Q ps) := by
  unfold pearson r2Q
  split
  · simp
  · rename_i h
    push_neg at h
    have h1 := lt_of_le_of_ne (varFst_nonneg ps) (Ne.symm h.1)
    have h2 := lt_of_le_of_ne (varSnd_nonneg ps) (Ne.symm h.2)
    have h1R : (0:ℝ) < (varFst ps : ℝ) := by exact_mod_cast h1
    have h2R : (0:ℝ) < (varSnd ps : ℝ) := by exact_mod_cast h2
    have hd : (0:ℝ) < Real.sqrt (varFst ps) * Real.sqrt (varSnd ps) := by
      apply mul_pos <;> exact Real.sqrt_pos.mpr (by assumption)
    rw [abs_div, abs_of_pos hd, ← Real.sqrt_mul h1R.le, ← Real.sqrt_sq_eq_abs,
      ← Real.sqrt_div (sq_nonneg _)]
    congr 1
    push_cast
    ring

/-- The Pearson coefficient lies in the closed interval from -1 to 1. -/
lemma abs_pearson_le_one (ps : List (ℚ × ℚ)) : |pearson ps| ≤ 1 := by
  rw [abs_pearson_eq_sqrt_r2Q]
  have h := r2Q_le_one ps
  have hR : ((r2Q ps : ℚ) : ℝ) ≤ 1 := by exact_mod_cast h
  calc Real.sqrt (r2Q ps) ≤ Real.sqrt 1 := Real.sqrt_le_sqrt hR
    _ = 1 := Real.sqrt_one

/-- Comparison of absolute Pearson coefficients is the comparison of their
rational squares. -/
lemma abs_pearson_le_iff_r2Q_le (a b : List (ℚ × ℚ)) :
    |pearson a| ≤ |pearson b| ↔ r2Q a ≤ r2Q b := by
  rw [abs_pearson_eq_sqrt_r2Q, abs_pearson_eq_sqrt_r2Q]
  rw [Real.sqrt_le_sqrt_iff ?_]
  · constructor
    · intro h; exact_mod_cast h
    · intro h; exact_mod_cast h
  · exact_mod_cast r2Q_nonneg b

/-! ### EventSeries Builder (spec 4.1) -/

/-- Modelled from the spec: triangular smoothing kernel of the EventSeries
Builder, with bandwidth bw; axis points beyond the kernel support receive
weight 0. -/
def kernelWeight (bw d : ℚ) : ℚ := max 0 (1 - |d| / bw)

/-- Modelled from the spec: amplitude of the built signal at one axis
point, a magnitude-weighted kernel sum over the events of one category. -/
def amplitudeAt (events : List Event) (bw t : ℚ) : ℚ :=
  (events.map (fun e => e.magnitude * kernelWeight bw (t - e.timestamp))).sum

/-- Modelled from the spec: the signal of one event category sampled on a
shared time axis, as a list of time and amplitude pairs. -/
def signalOn (axis : List ℚ) (events : List Event) (bw : ℚ) : List (ℚ × ℚ) :=
  axis.map (fun t => (t, amplitudeAt events bw t))

/-- Smallest timestamp of an event list (0 on the empty list). -/
def tsMin : List Event → ℚ
  | [] => 0
  | e :: es => es.foldl (fun a x => min a x.timestamp) e.timestamp

/-- Largest timestamp of an event list (0 on the empty list). -/
def tsMax : List Event → ℚ
  | [] => 0
  | e :: es => es.foldl (fun a x => max a x.timestamp) e.timestamp

/-- Modelled from the spec: the shared time axis of a request, spanning the
union of the two timestamp extents, sampled at the lag step. -/
def axisOf (req : Request) : List ℚ :=
  let start := min (tsMin req.cosmic_events) (tsMin req.evolutionary_events)
  let stop := max (tsMax req.cosmic_events) (tsMax req.evolutionary_events)
  (List.range ((⌊(stop - start) / req.lag_range.step⌋ + 1).toNat)).map
    (fun i : ℕ => start + (i : ℚ) * req.lag_range.step)

/-- Modelled from the spec: the cosmic signal of a request. -/
def cosSigOf (req : Request) : List (ℚ × ℚ) :=
  signalOn (axisOf req) req.cosmic_events req.lag_range.step

/-- Modelled from the spec: the evolutionary signal of a request. -/
def evoSigOf (req : Request) : List (ℚ × ℚ) :=
  signalOn (axisOf req) req.evolutionary_events req.lag_range.step

/-! ### Lag Correlation Analyzer (spec 4.2) -/

/-- Modelled from the spec: linear interpolation of a sampled signal at a
query time; none outside the covered range (excluded, not zero-filled). -/
def interpAt : List (ℚ × ℚ) → ℚ → Option ℚ
  | [], _ => none
  | [(t, v)], u => if u = t then some v else none
  | (t1, v1) :: (t2, v2) :: rest, u =>
    if u < t1 then none
    else if u ≤ t2 then some (v1 + (v2 - v1) * (u - t1) / (t2 - t1))
    else interpAt ((t2, v2) :: rest) u

/-- Modelled from the spec: the aligned amplitude pairs at one lag; the
evolutionary signal is shifted by the lag and resampled on the cosmic axis,
dropping points outside its covered range. -/
def alignedPairs (cosSig evoSig : List (ℚ × ℚ)) (lag : ℚ) : List (ℚ × ℚ) :=
  cosSig.filterMap (fun p => (interpAt evoSig (p.1 - lag)).map (fun v => (p.2, v)))

/-- Modelled from the spec: the aligned pairs of a request at one lag. -/
def obsPairs (req : Request) (lag : ℚ) : List (ℚ × ℚ) :=
  alignedPairs (cosSigOf req) (evoSigOf req) lag

/-- Modelled from the spec: the minimum number of overlap points below
which a lag is degenerate. -/
def minOverlap : ℕ := 5

/-- Modelled from the spec: a lag is degenerate when the post-shift overlap
has fewer than the minimum number of points or either aligned amplitude
sequence has zero variance. -/
def degenerateAt (req : Request) (lag : ℚ) : Bool :=
  decide ((obsPairs req lag).length < minOverlap) ||
  decide (varFst (obsPairs req lag) = 0) || decide (varSnd (obsPairs req lag) = 0)

/-- Modelled from the spec: the number of evaluated lags, one plus the
floor of the range width over the step. -/
def numLags (r : LagRange) : ℕ := (⌊(r.max - r.min) / r.step⌋ + 1).toNat

/-- Modelled from the spec: the contiguous, evenly stepped list of
evaluated lags. -/
def lagList (r : LagRange) : List ℚ :=
  (List.range (numLags r)).map (fun i : ℕ => r.min + (i : ℚ) * r.step)

/-! ### Significance Tester (spec 4.3) -/

/-- Modelled from the spec: one step of the injectable seeded generator
used for reproducible shuffling (a 32-bit linear congruential update). -/
def lcg (s : ℕ) : ℕ := (1664525 * s + 1013904223) % 4294967296

/-- Iterated generator update. -/
def iterLcg : ℕ → ℕ → ℕ
  | 0, s => s
  | n + 1, s => iterLcg n (lcg s)

/-- Fuel-driven Fisher-Yates selection: repeatedly extract the element at
the generator-chosen index. -/
def shuffleGo : ℕ → ℕ → List ℚ → List ℚ
  | _, 0, _ => []
  | s, f + 1, l => l.getD (s % l.length) 0 :: shuffleGo (lcg s) f (l.eraseIdx (s % l.length))

/-- Modelled from the spec: seeded random permutation of a list of
timestamps. -/
def shuffle (s : ℕ) (l : List ℚ) : List ℚ := shuffleGo (lcg s) l.length l

/-- Modelled from the spec: the permuted evolutionary event list, keeping
the magnitudes attached to shuffled timestamps. -/
def permuteEvents (s : ℕ) (evo : List Event) : List Event :=
  ((shuffle s (evo.map Event.timestamp)).zip (evo.map Event.magnitude)).map
    (fun p => ⟨p.1, p.2⟩)

/-- Modelled from the spec: the completed permutation count of a request
(the validated positive permutation_count). -/
def permCount (req : Request) : ℕ := req.permutation_count.toNat

/-- Modelled from the spec: aligned pairs at one lag of the i-th permuted
rebuild of the evolutionary signal against the unshifted cosmic signal. -/
def permPairs (req : Request) (s : ℕ) (i : ℕ) (lag : ℚ) : List (ℚ × ℚ) :=
  alignedPairs (cosSigOf req)
    (signalOn (axisOf req) (permuteEvents (iterLcg (i + 1) s) req.evolutionary_events)
      req.lag_range.step) lag

/-- Modelled from the spec: the permutation-test p-value at one lag, with
add-one smoothing; the comparison of absolute coefficients is carried out
on their rational squares. -/
def pValueAt (req : Request) (s : ℕ) (lag : ℚ) : ℚ :=
  (((List.range (permCount req)).countP
      (fun i => decide (r2Q (obsPairs req lag) ≤ r2Q (permPairs req s i lag)))) + 1) /
    (permCount req + 1)

/-- Modelled from the spec: the default significance threshold. -/
def defaultThreshold : ℚ := 5 / 100

/-- Modelled from the spec: the effective significance threshold of a
request, the default 0.05 when the caller supplies none. -/
def thresholdOf (req : Request) : ℚ :=
  req.significance_threshold.getD defaultThreshold

/-- Modelled from the spec: the LagResult recorded at one lag. A
degenerate lag is recorded with coefficient 0 and p-value 1 rather than
failing; otherwise the Pearson coefficient and the permutation p-value are
recorded, and the significant flag compares the p-value to the effective
threshold. -/
noncomputable def lagResultAt (req : Request) (s : ℕ) (lag : ℚ) : LagResult :=
  if degenerateAt req lag then
    ⟨lag, 0, 1, decide ((1 : ℚ) < thresholdOf req)⟩
  else
    ⟨lag, pearson (obsPairs req lag), pValueAt req s lag,
      decide (pValueAt req s lag < thresholdOf req)⟩

/-- Modelled from the spec: the per-lag results of a request, one per
evaluated lag, in ascending lag order. -/
noncomputable def resultsOf (req : Request) (s : ℕ) : List LagResult :=
  (lagList req.lag_range).map (lagResultAt req s)

/-- Modelled from the spec: the lags flagged significant. -/
noncomputable def sigLagsOf (req : Request) (s : ℕ) : List ℚ :=
  (lagList req.lag_range).filter (fun lag => (lagResultAt req s lag).significant)

/-! ### Cluster Detector (spec 4.4) -/

/-- Modelled from the spec: the residual of a candidate pair from its
matched lag, the absolute deviation of the timestamp difference. -/
def residual (lag : ℚ) (c e : Event) : ℚ := |e.timestamp - c.timestamp - lag|

/-- All pairs of a cosmic event and a significant lag. -/
def allPairs (cosmic : List Event) (sigLags : List ℚ) : List (Event × ℚ) :=
  cosmic.flatMap (fun c => sigLags.map (fun lag => (c, lag)))

/-- Modelled from the spec: a candidate qualifies when its timestamp
difference falls within the matched lag plus or minus the tolerance. -/
def qualifies (tol : ℚ) (e : Event) (cand : Event × ℚ) : Bool :=
  decide (residual cand.2 cand.1 e ≤ tol)

/-- Strict preference between candidates: smaller residual wins, ties are
broken by the earlier cosmic event timestamp. -/
def keyLt (e : Event) (a b : Event × ℚ) : Bool :=
  decide (residual a.2 a.1 e < residual b.2 b.1 e) ||
  (decide (residual a.2 a.1 e = residual b.2 b.1 e) &&
    decide (a.1.timestamp < b.1.timestamp))

/-- Keep the strictly better of two candidates, preferring the first on
equal keys. -/
def pickBetter (e : Event) (a b : Event × ℚ) : Event × ℚ :=
  if keyLt e b a then b else a

/-- Modelled from the spec: the closest qualifying match of one
evolutionary event among all cosmic events and significant lags. -/
def bestMatch (cosmic : List Event) (sigLags : List ℚ) (tol : ℚ) (e : Event) :
    Option (Event × ℚ) :=
  match (allPairs cosmic sigLags).filter (qualifies tol e) with
  | [] => none
  | c :: cs => some (cs.foldl (pickBetter e) c)

/-- Modelled from the spec: the Cluster Detector, producing at most one
cluster per evolutionary event, the closest qualifying match with
tolerance half the lag step. -/
def clusterDetect (cosmic evo : List Event) (sigLags : List ℚ) (step : ℚ) :
    List Cluster :=
  evo.filterMap (fun e => (bestMatch cosmic sigLags (step / 2) e).map
    (fun cand => ⟨cand.1, e, e.timestamp - cand.1.timestamp, cand.2⟩))

/-! ### Report Assembler and engine entry point (spec 4.5, 6, 7) -/

/-- Modelled from the spec: summary statistics over the assembled
results. -/
noncomputable def summaryOf (results : List LagResult) : Summary :=
  match results.filter (fun r => r.significant) with
  | [] => ⟨none, 0⟩
  | r :: rs =>
    ⟨some ((rs.map (fun x => |x.correlation_coefficient|)).foldl max
        |r.correlation_coefficient|),
      (r :: rs).length⟩

/-- Modelled from the spec: range validation, rejecting a lag minimum
above the maximum, a non-positive step, or a non-positive permutation
count. -/
def validRange (req : Request) : Bool :=
  decide (req.lag_range.min ≤ req.lag_range.max) &&
  decide (0 < req.lag_range.step) && decide (0 < req.permutation_count)

/-- Modelled from the spec: data validation, requiring at least two events
in each category and overlapping timestamp extents. -/
def sufficientData (req : Request) : Bool :=
  decide (2 ≤ req.cosmic_events.length) &&
  decide (2 ≤ req.evolutionary_events.length) &&
  decide (max (tsMin req.cosmic_events) (tsMin req.evolutionary_events) ≤
    min (tsMax req.cosmic_events) (tsMax req.evolutionary_events))

/-- Modelled from the spec: the assembled response of a validated request,
computed from the effective seed. -/
noncomputable def computeResponse (req : Request) (s : ℕ) : Response :=
  ⟨resultsOf req s,
    clusterDetect req.cosmic_events req.evolutionary_events (sigLagsOf req s)
      req.lag_range.step,
    summaryOf (resultsOf req s)⟩

/-- Modelled from the spec: the engine entry point. Range validation is
surfaced immediately, before any computation; data validation follows; a
validated request is computed from the explicit random seed, or from the
ambient entropy when the caller supplies no seed. -/
noncomputable def runEngine (req : Request) (entropy : ℕ) :
    Except EngineError Response :=
  if validRange req = false then Except.error EngineError.invalidRange
  else if sufficientData req = false then Except.error EngineError.insufficientData
  else Except.ok (computeResponse req (req.random_seed.getD entropy))

/-! ### Timeline display component (CorrelationChart.js, Timeline) -/

/-- Display-layer evolutionary event as consumed by the Timeline component
of CorrelationChart.js; affected_taxa is carried as optional data, since
the supplier may omit it. -/
structure DisplayEvent where
  timestamp : ℚ
  eventType : String
  magnitude : ℚ
  description : String
  affected_taxa : Option (List String)

/-- Tooltip body built by the Timeline mouse-over handler for an
evolutionary event: it unconditionally joins affected_taxa with a comma,
so the access fails (none) when the field is absent. -/
def evoTooltipHtml (d : DisplayEvent) : Option String :=
  match d.affected_taxa with
  | none => none
  | some taxa =>
    some ("Type: " ++ d.eventType ++ "; Affected Taxa: " ++
      String.intercalate ", " taxa ++ "; Description: " ++ d.description)

/-- Rendering of the whole supplied evolutionary event list by the
Timeline handler; total only when every tooltip succeeds. -/
def renderEvoTooltips : List DisplayEvent → Option (List String)
  | [] => some []
  | d :: rest =>
    match evoTooltipHtml d, renderEvoTooltips rest with
    | some s, some ss => some (s :: ss)
    | _, _ => none

/-! ### Structural lemmas about the engine -/

/-- The recorded lag of a per-lag result is the evaluated lag. -/
lemma lagResultAt_time_lag (req : Request) (s : ℕ) (lag : ℚ) :
    (lagResultAt req s lag).time_lag_days = lag := by
  unfold lagResultAt
  split <;> rfl

/-- In both branches, the significant flag compares the recorded p-value to
the effective threshold. -/
lemma lagResultAt_significant_eq (req : Request) (s : ℕ) (lag : ℚ) :
    (lagResultAt req s lag).significant =
      decide ((lagResultAt req s lag).p_value < thresholdOf req) := by
  unfold lagResultAt
  split <;> rfl

/-- The permutation p-value is positive. -/
lemma pValueAt_pos (req : Request) (s : ℕ) (lag : ℚ) : 0 < pValueAt req s lag := by
  unfold pValueAt
  positivity

/-- The permutation p-value is at most one. -/
lemma pValueAt_le_one (req : Request) (s : ℕ) (lag : ℚ) : pValueAt req s lag ≤ 1 := by
  unfold pValueAt
  rw [div_le_one (by positivity)]
  have h := List.countP_le_length
    (fun i => decide (r2Q (obsPairs req lag) ≤ r2Q (permPairs req s i lag)))
    (l := List.range (permCount req))
  rw [List.length_range] at h
  have hq : ((List.range (permCount req)).countP
      (fun i => decide (r2Q (obsPairs req lag) ≤ r2Q (permPairs req s i lag))) : ℚ) ≤
      (permCount req : ℚ) := by exact_mod_cast h
  linarith

/-- The recorded p-value is positive at every lag. -/
lemma lagResultAt_p_pos (req : Request) (s : ℕ) (lag : ℚ) :
    0 < (lagResultAt req s lag).p_value := by
  unfold lagResultAt
  split
  · norm_num
  · exact pValueAt_pos req s lag

/-- The recorded p-value is at most one at every lag. -/
lemma lagResultAt_p_le_one (req : Request) (s : ℕ) (lag : ℚ) :
    (lagResultAt req s lag).p_value ≤ 1 := by
  unfold lagResultAt
  split
  · norm_num
  · exact pValueAt_le_one req s lag

/-- The recorded coefficient is bounded by one in absolute value. -/
lemma lagResultAt_coeff_abs_le_one (req : Request) (s : ℕ) (lag : ℚ) :
    |(lagResultAt req s lag).correlation_coefficient| ≤ 1 := by
  unfold lagResultAt
  split
  · norm_num
  · exact abs_pearson_le_one (obsPairs req lag)

/-- Elimination of a successful engine run: both validations passed and the
response is the computed one. -/
lemma runEngine_ok_elim {req : Request} {entropy : ℕ} {resp : Response}
    (h : runEngine req entropy = Except.ok resp) :
    validRange req = true ∧ sufficientData req = true ∧
      resp = computeResponse req (req.random_seed.getD entropy) := by
  unfold runEngine at h
  by_cases hv : validRange req = false
  · rw [if_pos hv] at h
    exact absurd h (by simp)
  · rw [if_neg hv] at h
    by_cases hs : sufficientData req = false
    · rw [if_pos hs] at h
      exact absurd h (by simp)
    · rw [if_neg hs] at h
      injection h with h1
      exact ⟨by simpa using hv, by simpa using hs, h1.symm⟩

/-- Elimination of a passed range validation. -/
lemma validRange_true_elim {req : Request} (h : validRange req = true) :
    req.lag_range.min ≤ req.lag_range.max ∧ 0 < req.lag_range.step ∧
      0 < req.permutation_count := by
  simpa [validRange, Bool.and_eq_true, decide_eq_true_eq, and_assoc] using h

/-- Membership in the result list comes from an evaluated lag. -/
lemma mem_results_elim {req : Request} {s : ℕ} {e : LagResult}
    (he : e ∈ (computeResponse req s).correlation_results) :
    ∃ lag ∈ lagList req.lag_range, e = lagResultAt req s lag := by
  simp only [computeResponse, resultsOf] at he
  obtain ⟨lag, hlag, hl⟩ := List.mem_map.mp he
  exact ⟨lag, hlag, hl.symm⟩

/-! ### Concrete requests used to instantiate the theorems -/

/-- Tiny valid request whose single lag is degenerate (two-point overlap),
with the default threshold. -/
def reqB : Request :=
  ⟨[⟨0, 5⟩, ⟨10, 5⟩], [⟨0, 3⟩, ⟨10, 3⟩], ⟨0, 0, 10⟩, none, 1, none⟩

/-- The same degenerate request with a caller-supplied threshold above 1. -/
def reqC : Request :=
  ⟨[⟨0, 5⟩, ⟨10, 5⟩], [⟨0, 3⟩, ⟨10, 3⟩], ⟨0, 0, 10⟩, some 2, 1, none⟩

/-- Tiny valid request whose single lag is non-degenerate (five-point
overlap with positive variance), with an explicit seed. -/
def reqF : Request :=
  ⟨[⟨0, 4⟩, ⟨4, 4⟩], [⟨0, 2⟩, ⟨4, 2⟩], ⟨0, 0, 1⟩, none, 1, some 7⟩

/-- Request with an inverted lag range and empty event lists. -/
def reqBad : Request := ⟨[], [], ⟨1, 0, 1⟩, none, 1, none⟩

/-- Request with a valid lag range and empty event lists. -/
def reqEmpty : Request := ⟨[], [], ⟨0, 0, 1⟩, none, 1, none⟩

/-- The degenerate request passes both validations and runs. -/
lemma reqB_ok : runEngine reqB 0 = Except.ok (computeResponse reqB 0) := by
  have hv : validRange reqB = true := by norm_num [validRange, reqB]
  have hs : sufficientData reqB = true := by
    norm_num [sufficientData, reqB, tsMin, tsMax]
  have hseed : reqB.random_seed = none := rfl
  simp [runEngine, hv, hs, hseed]

/-- The single evaluated lag of the degenerate request. -/
lemma reqB_lagList : lagList reqB.lag_range = [0] := by
  have hr : reqB.lag_range = ⟨0, 0, 10⟩ := rfl
  have hn : numLags (⟨0, 0, 10⟩ : LagRange) = 1 := by
    norm_num [numLags]
  have hrange : List.range 1 = [0] := rfl
  rw [hr]
  simp only [lagList, hn, hrange, List.map_cons, List.map_nil]
  norm_num

/-- The lag-0 entry belongs to the response of the degenerate request. -/
lemma reqB_mem : lagResultAt reqB 0 0 ∈ (computeResponse reqB 0).correlation_results := by
  show lagResultAt reqB 0 0 ∈ resultsOf reqB 0
  unfold resultsOf
  rw [reqB_lagList]
  exact List.mem_map_of_mem (lagResultAt reqB 0) (by simp)

/-! ### Claim theorems -/

/-- C1: For every LagResult entry in a returned response, the significant
flag is true precisely when the p-value is below the significance
threshold, which defaults to 0.05 when the caller supplies none; no entry
diverges from this rule. -/
theorem significant_iff_p_lt_threshold (req : Request) (entropy : ℕ)
    (resp : Response) (e : LagResult)
    (h : runEngine req entropy = Except.ok resp)
    (he : e ∈ resp.correlation_results) :
    e.significant = true ↔ e.p_value < req.significance_threshold.getD (5 / 100) := by
  obtain ⟨hv, hs, rfl⟩ := runEngine_ok_elim h
  obtain ⟨lag, hlag, rfl⟩ := mem_results_elim he
  have hθ : req.significance_threshold.getD (5 / 100) = thresholdOf req := rfl
  rw [hθ, lagResultAt_significant_eq]
  exact decide_eq_true_iff

/-- Witness for C1 at the concrete degenerate request. -/
theorem significant_iff_p_lt_threshold_witness :
    (lagResultAt reqB 0 0).significant = true ↔
      (lagResultAt reqB 0 0).p_value < reqB.significance_threshold.getD (5 / 100) :=
  significant_iff_p_lt_threshold reqB 0 (computeResponse reqB 0)
    (lagResultAt reqB 0 0) reqB_ok reqB_mem

/-- C5: Two engine runs on the same request with the same explicit random
seed return identical responses, and in particular identical p-values for
every lag, whatever ambient entropy each run would otherwise draw. -/
theorem p_values_deterministic_given_seed (req : Request) (s : ℕ) (e1 e2 : ℕ)
    (h : req.random_seed = some s) :
    runEngine req e1 = runEngine req e2 ∧
      (runEngine req e1).map (fun r => r.correlation_results.map LagResult.p_value) =
        (runEngine req e2).map (fun r => r.correlation_results.map LagResult.p_value) := by
  have hrun : runEngine req e1 = runEngine req e2 := by simp [runEngine, h]
  exact ⟨hrun, by rw [hrun]⟩

/-- Witness for C5 at the concrete seeded request. -/
theorem p_values_deterministic_given_seed_witness :
    runEngine reqF 0 = runEngine reqF 1 ∧
      (runEngine reqF 0).map (fun r => r.correlation_results.map LagResult.p_value) =
        (runEngine reqF 1).map (fun r => r.correlation_results.map LagResult.p_value) :=
  p_values_deterministic_given_seed reqF 7 0 1 rfl

/-- C8: A request whose lag range has minimum above maximum, or a
non-positive step, or a non-positive permutation count, is rejected with
InvalidRangeError before any computation, whatever its event lists. -/
theorem invalid_range_rejected (req : Request) (entropy : ℕ)
    (h : req.lag_range.max < req.lag_range.min ∨ req.lag_range.step ≤ 0 ∨
      req.permutation_count ≤ 0) :
    runEngine req entropy = Except.error EngineError.invalidRange := by
  have hv : validRange req = false := by
    rw [Bool.eq_false_iff]
    intro hc
    obtain ⟨h1, h2, h3⟩ := validRange_true_elim hc
    rcases h with h | h | h
    · exact absurd h1 (not_le.mpr h)
    · exact absurd h2 (not_lt.mpr h)
    · exact absurd h3 (not_lt.mpr h)
  simp [runEngine, hv]

/-- Witness for C8 at the concrete inverted-range request. -/
theorem invalid_range_rejected_witness :
    runEngine reqBad 0 = Except.error EngineError.invalidRange :=
  invalid_range_rejected reqBad 0 (Or.inl (by norm_num [reqBad]))

/-! ### Lag list structure -/

/-- One result is recorded per evaluated lag. -/
lemma lagList_length (r : LagRange) : (lagList r).length = numLags r := by
  unfold lagList
  rw [List.length_map, List.length_range]

/-- The evaluated lag count as an integer, for a validated range. -/
lemma numLags_cast {r : LagRange} (h1 : r.min ≤ r.max) (h2 : 0 < r.step) :
    (numLags r : ℤ) = ⌊(r.max - r.min) / r.step⌋ + 1 := by
  unfold numLags
  have hq : (0 : ℚ) ≤ (r.max - r.min) / r.step := div_nonneg (by linarith) h2.le
  have hf : 0 ≤ ⌊(r.max - r.min) / r.step⌋ := Int.floor_nonneg.mpr hq
  rw [Int.toNat_of_nonneg (by omega)]

/-- The evaluated lags are strictly increasing. -/
lemma lagList_pairwise {r : LagRange} (h2 : 0 < r.step) :
    (lagList r).Pairwise (· < ·) := by
  unfold lagList
  rw [List.pairwise_map]
  refine List.Pairwise.imp ?_ (List.pairwise_lt_range (numLags r))
  intro i j hij
  have hij2 : (i : ℚ) < j := by exact_mod_cast hij
  have := mul_lt_mul_of_pos_right hij2 h2
  simpa using this

/-- The recorded lags of a computed response are exactly the evaluated
lags, in order. -/
lemma results_map_time_lag (req : Request) (s : ℕ) :
    (computeResponse req s).correlation_results.map LagResult.time_lag_days =
      lagList req.lag_range := by
  show (resultsOf req s).map _ = _
  unfold resultsOf
  rw [List.map_map]
  have hfun : (LagResult.time_lag_days ∘ lagResultAt req s) = fun lag => lag := by
    funext lag
    exact lagResultAt_time_lag req s lag
  rw [hfun]
  simp

/-- C2: For every valid request, the response has exactly one entry per
evaluated lag, namely one plus the floor of the range width over the step,
the recorded lags are the contiguous evenly stepped lag list, and they are
sorted strictly ascending. -/
theorem results_count_and_sorted (req : Request) (entropy : ℕ) (resp : Response)
    (h : runEngine req entropy = Except.ok resp) :
    (resp.correlation_results.length : ℤ) =
        ⌊(req.lag_range.max - req.lag_range.min) / req.lag_range.step⌋ + 1 ∧
      resp.correlation_results.map LagResult.time_lag_days = lagList req.lag_range ∧
      (resp.correlation_results.map LagResult.time_lag_days).Pairwise (· < ·) := by
  obtain ⟨hv, hs, rfl⟩ := runEngine_ok_elim h
  obtain ⟨h1, h2, h3⟩ := validRange_true_elim hv
  refine ⟨?_, results_map_time_lag req _, ?_⟩
  · show ((resultsOf req _).length : ℤ) = _
    unfold resultsOf
    rw [List.length_map, lagList_length, numLags_cast h1 h2]
  · rw [results_map_time_lag]
    exact lagList_pairwise h2

/-- Witness for C2 at the concrete degenerate request. -/
theorem results_count_and_sorted_witness :
    ((computeResponse reqB 0).correlation_results.length : ℤ) =
        ⌊(reqB.lag_range.max - reqB.lag_range.min) / reqB.lag_range.step⌋ + 1 ∧
      (computeResponse reqB 0).correlation_results.map LagResult.time_lag_days =
        lagList reqB.lag_range ∧
      ((computeResponse reqB 0).correlation_results.map
        LagResult.time_lag_days).Pairwise (· < ·) :=
  results_count_and_sorted reqB 0 (computeResponse reqB 0) reqB_ok

/-- C3: Every returned entry has its correlation coefficient in the closed
interval from -1 to 1 and its p-value in the closed interval from 0 to 1. -/
theorem coefficient_and_p_value_bounds (req : Request) (entropy : ℕ)
    (resp : Response) (e : LagResult)
    (h : runEngine req entropy = Except.ok resp)
    (he : e ∈ resp.correlation_results) :
    -1 ≤ e.correlation_coefficient ∧ e.correlation_coefficient ≤ 1 ∧
      0 ≤ e.p_value ∧ e.p_value ≤ 1 := by
  obtain ⟨hv, hs, rfl⟩ := runEngine_ok_elim h
  obtain ⟨lag, hlag, rfl⟩ := mem_results_elim he
  have hc := lagResultAt_coeff_abs_le_one req (req.random_seed.getD entropy) lag
  rw [abs_le] at hc
  exact ⟨hc.1, hc.2, (lagResultAt_p_pos req _ lag).le, lagResultAt_p_le_one req _ lag⟩

/-- Witness for C3 at the concrete degenerate request. -/
theorem coefficient_and_p_value_bounds_witness :
    -1 ≤ (lagResultAt reqB 0 0).correlation_coefficient ∧
      (lagResultAt reqB 0 0).correlation_coefficient ≤ 1 ∧
      0 ≤ (lagResultAt reqB 0 0).p_value ∧ (lagResultAt reqB 0 0).p_value ≤ 1 :=
  coefficient_and_p_value_bounds reqB 0 (computeResponse reqB 0)
    (lagResultAt reqB 0 0) reqB_ok reqB_mem

/-! ### Evaluation facts about the non-degenerate concrete request -/

/-- The non-degenerate request passes both validations and runs with its
explicit seed. -/
lemma reqF_ok : runEngine reqF 0 = Except.ok (computeResponse reqF 7) := by
  have hv : validRange reqF = true := by norm_num [validRange, reqF]
  have hs : sufficientData reqF = true := by
    norm_num [sufficientData, reqF, tsMin, tsMax]
  have hseed : reqF.random_seed = some 7 := rfl
  simp [runEngine, hv, hs, hseed]

/-- Lag 0 is evaluated by the non-degenerate request. -/
lemma reqF_lag_mem : (0 : ℚ) ∈ lagList reqF.lag_range := by
  have hr : reqF.lag_range = ⟨0, 0, 1⟩ := rfl
  have hn : numLags (⟨0, 0, 1⟩ : LagRange) = 1 := by norm_num [numLags]
  have hrange : List.range 1 = [0] := rfl
  rw [hr]
  simp only [lagList, hn, hrange, List.map_cons, List.map_nil]
  norm_num

/-- Lag 0 of the non-degenerate request has a five-point overlap with
positive variance on both coordinates. -/
lemma reqF_nondeg : degenerateAt reqF 0 = false := by
  have hc : reqF.cosmic_events = [⟨0, 4⟩, ⟨4, 4⟩] := rfl
  have he : reqF.evolutionary_events = [⟨0, 2⟩, ⟨4, 2⟩] := rfl
  have hst : reqF.lag_range.step = 1 := rfl
  have hmin : min (tsMin reqF.cosmic_events) (tsMin reqF.evolutionary_events) = 0 := by
    rw [hc, he]; norm_num [tsMin]
  have hmax : max (tsMax reqF.cosmic_events) (tsMax reqF.evolutionary_events) = 4 := by
    rw [hc, he]; norm_num [tsMax]
  have hn : (⌊((4 : ℚ) - 0) / 1⌋ + 1).toNat = 5 := by norm_num; rfl
  have hrange : List.range 5 = [0, 1, 2, 3, 4] := rfl
  have hax : axisOf reqF = [0, 1, 2, 3, 4] := by
    simp only [axisOf, hmin, hmax, hst, hn, hrange, List.map_cons, List.map_nil]
    norm_num
  have hcos : cosSigOf reqF = [(0, 4), (1, 0), (2, 0), (3, 0), (4, 4)] := by
    simp only [cosSigOf, signalOn, hax, hc, hst, List.map_cons, List.map_nil]
    norm_num [amplitudeAt, kernelWeight]
  have hevo : evoSigOf reqF = [(0, 2), (1, 0), (2, 0), (3, 0), (4, 2)] := by
    simp only [evoSigOf, signalOn, hax, he, hst, List.map_cons, List.map_nil]
    norm_num [amplitudeAt, kernelWeight]
  have hobs : obsPairs reqF 0 = [(4, 2), (0, 0), (0, 0), (0, 0), (4, 2)] := by
    simp only [obsPairs, alignedPairs, hcos, hevo, List.filterMap_cons]
    norm_num [interpAt]
  norm_num [degenerateAt, hobs, varFst, varSnd, meanQ, minOverlap]

/-- C4: For every lag whose significance is estimated from the K completed
permutations, the returned p-value equals the count of permuted absolute
coefficients at least the observed absolute coefficient, plus one, over
K plus one; and the returned p-value is positive at every lag. -/
theorem p_value_formula_and_positive (req : Request) (entropy : ℕ)
    (resp : Response) (lag : ℚ) (h : runEngine req entropy = Except.ok resp)
    (hlag : lag ∈ lagList req.lag_range)
    (hnd : degenerateAt req lag = false) :
    (∀ e ∈ resp.correlation_results, 0 < e.p_value) ∧
      lagResultAt req (req.random_seed.getD entropy) lag ∈ resp.correlation_results ∧
      (lagResultAt req (req.random_seed.getD entropy) lag).p_value =
        (((List.range (permCount req)).countP
            (fun i => @decide (|pearson (obsPairs req lag)| ≤
              |pearson (permPairs req (req.random_seed.getD entropy) i lag)|)
              (Classical.propDecidable _))) + 1) /
          (permCount req + 1) := by
  obtain ⟨hv, hs, rfl⟩ := runEngine_ok_elim h
  refine ⟨?_, ?_, ?_⟩
  · intro e he
    obtain ⟨lag2, _, rfl⟩ := mem_results_elim he
    exact lagResultAt_p_pos req _ lag2
  · show lagResultAt req _ lag ∈ resultsOf req _
    exact List.mem_map_of_mem (lagResultAt req _) hlag
  · have hp : (lagResultAt req (req.random_seed.getD entropy) lag).p_value =
        pValueAt req (req.random_seed.getD entropy) lag := by
      unfold lagResultAt
      rw [if_neg (by simp [hnd])]
    rw [hp]
    unfold pValueAt
    have hcnt : (List.range (permCount req)).countP
        (fun i => decide (r2Q (obsPairs req lag) ≤
          r2Q (permPairs req (req.random_seed.getD entropy) i lag))) =
        (List.range (permCount req)).countP
        (fun i => @decide (|pearson (obsPairs req lag)| ≤
          |pearson (permPairs req (req.random_seed.getD entropy) i lag)|)
          (Classical.propDecidable _)) := by
      refine List.countP_congr ?_
      intro i _
      rw [decide_eq_true_iff, decide_eq_true_iff]
      exact (abs_pearson_le_iff_r2Q_le _ _).symm
    rw [hcnt]

/-- Witness for C4 at the concrete non-degenerate request. -/
theorem p_value_formula_and_positive_witness :
    0 < (lagResultAt reqF 7 0).p_value := by
  have h := p_value_formula_and_positive reqF 0 (computeResponse reqF 7) 0
    reqF_ok reqF_lag_mem reqF_nondeg
  exact h.1 (lagResultAt reqF 7 0) h.2.1

/-! ### Evaluation facts about the degenerate concrete request -/

/-- Range validation passes on the degenerate request. -/
lemma reqB_valid : validRange reqB = true := by norm_num [validRange, reqB]

/-- Data validation passes on the degenerate request. -/
lemma reqB_suff : sufficientData reqB = true := by
  norm_num [sufficientData, reqB, tsMin, tsMax]

/-- The effective threshold of the degenerate request is the default. -/
lemma reqB_thr : thresholdOf reqB ≤ 1 := by
  norm_num [thresholdOf, reqB, defaultThreshold]

/-- Lag 0 of the degenerate request has only a two-point overlap. -/
lemma reqB_degen : degenerateAt reqB 0 = true := by
  have hc : reqB.cosmic_events = [⟨0, 5⟩, ⟨10, 5⟩] := rfl
  have he : reqB.evolutionary_events = [⟨0, 3⟩, ⟨10, 3⟩] := rfl
  have hst : reqB.lag_range.step = 10 := rfl
  have hmin : min (tsMin reqB.cosmic_events) (tsMin reqB.evolutionary_events) = 0 := by
    rw [hc, he]; norm_num [tsMin]
  have hmax : max (tsMax reqB.cosmic_events) (tsMax reqB.evolutionary_events) = 10 := by
    rw [hc, he]; norm_num [tsMax]
  have hn : (⌊((10 : ℚ) - 0) / 10⌋ + 1).toNat = 2 := by norm_num; rfl
  have hrange : List.range 2 = [0, 1] := rfl
  have hax : axisOf reqB = [0, 10] := by
    simp only [axisOf, hmin, hmax, hst, hn, hrange, List.map_cons, List.map_nil]
    norm_num
  have hcos : cosSigOf reqB = [(0, 5), (10, 5)] := by
    simp only [cosSigOf, signalOn, hax, hc, hst, List.map_cons, List.map_nil]
    norm_num [amplitudeAt, kernelWeight]
  have hevo : evoSigOf reqB = [(0, 3), (10, 3)] := by
    simp only [evoSigOf, signalOn, hax, he, hst, List.map_cons, List.map_nil]
    norm_num [amplitudeAt, kernelWeight]
  have hobs : obsPairs reqB 0 = [(5, 3), (5, 3)] := by
    simp only [obsPairs, alignedPairs, hcos, hevo, List.filterMap_cons]
    norm_num [interpAt]
  have hlen : (obsPairs reqB 0).length < minOverlap := by
    rw [hobs]; norm_num [minOverlap]
  simp only [degenerateAt, Bool.or_eq_true, decide_eq_true_eq]
  left; left; exact hlen

/-- C6 (amended): For every validated request whose effective threshold is
at most 1, a degenerate lag does not fail the engine: the response still
records one entry per evaluated lag, and every entry at the degenerate lag
has coefficient 0, p-value 1 and significant false. -/
theorem degenerate_lag_recorded (req : Request) (entropy : ℕ)
    (hv : validRange req = true) (hd : sufficientData req = true)
    (hθ : thresholdOf req ≤ 1) (lag : ℚ) (hdeg : degenerateAt req lag = true) :
    ∃ resp, runEngine req entropy = Except.ok resp ∧
      resp.correlation_results.map LagResult.time_lag_days = lagList req.lag_range ∧
      ∀ e ∈ resp.correlation_results, e.time_lag_days = lag →
        e.correlation_coefficient = 0 ∧ e.p_value = 1 ∧ e.significant = false := by
  refine ⟨computeResponse req (req.random_seed.getD entropy), ?_, results_map_time_lag req _, ?_⟩
  · unfold runEngine
    rw [if_neg (by simp [hv]), if_neg (by simp [hd])]
  · intro e he hlag2
    obtain ⟨lag2, _, rfl⟩ := mem_results_elim he
    rw [lagResultAt_time_lag] at hlag2
    subst hlag2
    unfold lagResultAt
    rw [if_pos (by simp [hdeg])]
    exact ⟨rfl, rfl, decide_eq_false (not_lt.mpr hθ)⟩

/-- Witness for C6 at the concrete degenerate request with the default
threshold. -/
theorem degenerate_lag_recorded_witness :
    (lagResultAt reqB 0 0).correlation_coefficient = 0 ∧
      (lagResultAt reqB 0 0).p_value = 1 ∧ (lagResultAt reqB 0 0).significant = false := by
  obtain ⟨resp, hok, hmap, hall⟩ :=
    degenerate_lag_recorded reqB 0 reqB_valid reqB_suff reqB_thr 0 reqB_degen
  rw [reqB_ok] at hok
  injection hok with h1
  subst h1
  exact hall (lagResultAt reqB 0 0) reqB_mem (lagResultAt_time_lag reqB 0 0)

/-- Counterexample for C6 as stated: with a caller-supplied threshold
above 1, the entry at a degenerate lag has coefficient 0 but its
significant flag is true, because the flag compares the p-value 1 to the
threshold. -/
theorem degenerate_significant_counterexample :
    degenerateAt reqC 0 = true ∧
      runEngine reqC 0 = Except.ok (computeResponse reqC 0) ∧
      lagResultAt reqC 0 0 ∈ (computeResponse reqC 0).correlation_results ∧
      (lagResultAt reqC 0 0).time_lag_days = 0 ∧
      (lagResultAt reqC 0 0).correlation_coefficient = 0 ∧
      (lagResultAt reqC 0 0).significant = true := by
  have hdeg : degenerateAt reqC 0 = true := by
    have h0 : degenerateAt reqC 0 = degenerateAt reqB 0 := rfl
    rw [h0]; exact reqB_degen
  have hv : validRange reqC = true := by
    have h0 : validRange reqC = validRange reqB := rfl
    rw [h0]; exact reqB_valid
  have hs : sufficientData reqC = true := by
    have h0 : sufficientData reqC = sufficientData reqB := rfl
    rw [h0]; exact reqB_suff
  have hseed : reqC.random_seed = none := rfl
  refine ⟨hdeg, by simp [runEngine, hv, hs, hseed], ?_, lagResultAt_time_lag reqC 0 0, ?_, ?_⟩
  · show lagResultAt reqC 0 0 ∈ resultsOf reqC 0
    unfold resultsOf
    have h0 : lagList reqC.lag_range = lagList reqB.lag_range := rfl
    rw [h0, reqB_lagList]
    exact List.mem_map_of_mem (lagResultAt reqC 0) (by simp)
  · unfold lagResultAt
    rw [if_pos (by simp [hdeg])]
  · unfold lagResultAt
    rw [if_pos (by simp [hdeg])]
    show decide ((1 : ℚ) < thresholdOf reqC) = true
    rw [decide_eq_true_iff]
    norm_num [thresholdOf, reqC]

/-- C7 (amended): For every request passing range validation, if either
category holds fewer than 2 events or the two timestamp extents do not
overlap, the engine raises InsufficientDataError and produces no result. -/
theorem insufficient_data_raised (req : Request) (entropy : ℕ)
    (hv : validRange req = true)
    (h : req.cosmic_events.length < 2 ∨ req.evolutionary_events.length < 2 ∨
      ¬ (max (tsMin req.cosmic_events) (tsMin req.evolutionary_events) ≤
        min (tsMax req.cosmic_events) (tsMax req.evolutionary_events))) :
    runEngine req entropy = Except.error EngineError.insufficientData := by
  have hs : sufficientData req = false := by
    rw [Bool.eq_false_iff]
    intro hc
    simp only [sufficientData, Bool.and_eq_true, decide_eq_true_eq] at hc
    obtain ⟨⟨h1, h2⟩, h3⟩ := hc
    rcases h with h | h | h
    · omega
    · omega
    · exact h h3
  unfold runEngine
  rw [if_neg (by simp [hv]), if_pos hs]

/-- Witness for C7 (amended) at the concrete empty request. -/
theorem insufficient_data_raised_witness :
    runEngine reqEmpty 0 = Except.error EngineError.insufficientData :=
  insufficient_data_raised reqEmpty 0 (by norm_num [validRange, reqEmpty])
    (Or.inl (by norm_num [reqEmpty]))

/-- Counterexample for C7 as stated: a request with empty categories but an
inverted lag range is rejected with InvalidRangeError, not
InsufficientDataError, because range validation is surfaced first. -/
theorem insufficient_data_not_raised_counterexample :
    reqBad.cosmic_events.length < 2 ∧
      runEngine reqBad 0 = Except.error EngineError.invalidRange ∧
      runEngine reqBad 0 ≠ Except.error EngineError.insufficientData := by
  have hv : validRange reqBad = false := by
    rw [Bool.eq_false_iff]
    intro hc
    obtain ⟨h1, _, _⟩ := validRange_true_elim hc
    norm_num [reqBad] at h1
  refine ⟨by norm_num [reqBad], by simp [runEngine, hv], ?_⟩
  simp [runEngine, hv]

/-! ### Cluster detector lemmas -/

/-- Characterization of the strict candidate preference. -/
lemma keyLt_iff (e : Event) (a b : Event × ℚ) :
    keyLt e a b = true ↔ residual a.2 a.1 e < residual b.2 b.1 e ∨
      (residual a.2 a.1 e = residual b.2 b.1 e ∧ a.1.timestamp < b.1.timestamp) := by
  simp [keyLt, Bool.or_eq_true, Bool.and_eq_true, decide_eq_true_eq]

/-- The candidate preference is transitive. -/
lemma keyLt_trans {e : Event} {a b c : Event × ℚ} (h1 : keyLt e a b = true)
    (h2 : keyLt e b c = true) : keyLt e a c = true := by
  rw [keyLt_iff] at h1 h2 ⊢
  rcases h1 with h1 | ⟨h1, h1t⟩ <;> rcases h2 with h2 | ⟨h2, h2t⟩
  · left; linarith
  · left; linarith
  · left; linarith
  · right; exact ⟨by linarith, by linarith⟩

/-- A candidate no better than one that beats a third also loses to the
third: the preference behaves as a strict lexicographic order. -/
lemma keyLt_of_not_of_keyLt {e : Event} {y c r : Event × ℚ}
    (hyc : keyLt e y c = false) (hyr : keyLt e y r = true) : keyLt e c r = true := by
  have hyc2 : ¬ (residual y.2 y.1 e < residual c.2 c.1 e ∨
      (residual y.2 y.1 e = residual c.2 c.1 e ∧ y.1.timestamp < c.1.timestamp)) := by
    intro hh
    rw [Bool.eq_false_iff] at hyc
    exact hyc ((keyLt_iff e y c).mpr hh)
  push_neg at hyc2
  obtain ⟨hcy, hty⟩ := hyc2
  rw [keyLt_iff] at hyr ⊢
  rcases hyr with h | ⟨h, ht⟩
  · left; linarith
  · rcases lt_or_eq_of_le hcy with hlt | heq
    · left; linarith
    · right
      refine ⟨by linarith, ?_⟩
      have := hty heq.symm
      linarith

/-- The fold over candidates returns one of them. -/
lemma foldl_pickBetter_mem (e : Event) (c : Event × ℚ) (cs : List (Event × ℚ)) :
    cs.foldl (pickBetter e) c ∈ c :: cs := by
  induction cs generalizing c with
  | nil => simp
  | cons x xs ih =>
    simp only [List.foldl_cons]
    have h := ih (pickBetter e c x)
    have hpick : pickBetter e c x = x ∨ pickBetter e c x = c := by
      unfold pickBetter
      split <;> simp
    rcases List.mem_cons.mp h with h1 | h1
    · rw [h1]
      rcases hpick with hp | hp <;> rw [hp] <;> simp
    · simp [h1]

/-- No processed candidate strictly beats the fold result. -/
lemma foldl_pickBetter_not_beaten (e : Event) (c : Event × ℚ) (cs : List (Event × ℚ)) :
    ∀ x ∈ c :: cs, keyLt e x (cs.foldl (pickBetter e) c) = false := by
  induction cs generalizing c with
  | nil =>
    intro x hx
    rw [List.mem_singleton] at hx
    subst hx
    rw [Bool.eq_false_iff]
    intro hc
    rw [keyLt_iff] at hc
    rcases hc with hc | ⟨_, hc⟩ <;> exact lt_irrefl _ hc
  | cons y ys ih =>
    intro x hx
    simp only [List.foldl_cons]
    have har : keyLt e (pickBetter e c y)
        (ys.foldl (pickBetter e) (pickBetter e c y)) = false :=
      ih (pickBetter e c y) (pickBetter e c y) (List.mem_cons_self _ _)
    rcases List.mem_cons.mp hx with h1 | hx2
    · rw [h1]
      by_cases hk : keyLt e y c = true
      · have hay : pickBetter e c y = y := by
          unfold pickBetter
          rw [if_pos hk]
        rw [hay] at har ⊢
        rw [Bool.eq_false_iff]
        intro hcr
        have h2 := keyLt_trans hk hcr
        rw [h2] at har
        cases har
      · have hac : pickBetter e c y = c := by
          unfold pickBetter
          rw [if_neg hk]
        rw [hac] at har ⊢
        exact har
    · rcases List.mem_cons.mp hx2 with h1 | hx3
      · rw [h1]
        by_cases hk : keyLt e y c = true
        · have hay : pickBetter e c y = y := by
            unfold pickBetter
            rw [if_pos hk]
          rw [hay] at har ⊢
          exact har
        · have hac : pickBetter e c y = c := by
            unfold pickBetter
            rw [if_neg hk]
          rw [hac] at har ⊢
          rw [Bool.eq_false_iff]
          intro hyr
          have h2 := keyLt_of_not_of_keyLt (Bool.eq_false_iff.mpr hk) hyr
          rw [h2] at har
          cases har
      · exact ih (pickBetter e c y) x (List.mem_cons_of_mem _ hx3)

/-- A returned best match is a qualifying candidate. -/
lemma bestMatch_mem {cosmic : List Event} {sigLags : List ℚ} {tol : ℚ} {e : Event}
    {cand : Event × ℚ} (h : bestMatch cosmic sigLags tol e = some cand) :
    cand ∈ (allPairs cosmic sigLags).filter (qualifies tol e) := by
  unfold bestMatch at h
  rcases hf : (allPairs cosmic sigLags).filter (qualifies tol e) with _ | ⟨c, cs⟩
  · rw [hf] at h
    exact absurd h (by simp)
  · rw [hf] at h
    injection h with h1
    rw [← h1]
    exact foldl_pickBetter_mem e c cs

/-- No qualifying candidate strictly beats a returned best match. -/
lemma bestMatch_min {cosmic : List Event} {sigLags : List ℚ} {tol : ℚ} {e : Event}
    {cand : Event × ℚ} (h : bestMatch cosmic sigLags tol e = some cand) :
    ∀ x ∈ (allPairs cosmic sigLags).filter (qualifies tol e),
      keyLt e x cand = false := by
  unfold bestMatch at h
  rcases hf : (allPairs cosmic sigLags).filter (qualifies tol e) with _ | ⟨c, cs⟩
  · rw [hf] at h
    exact absurd h (by simp)
  · rw [hf] at h
    injection h with h1
    rw [← h1]
    exact foldl_pickBetter_not_beaten e c cs

/-- Qualifying candidates are exactly the cosmic event and significant lag
pairs within tolerance. -/
lemma mem_filter_qualifies {cosmic : List Event} {sigLags : List ℚ} {tol : ℚ}
    {e : Event} {x : Event × ℚ} :
    x ∈ (allPairs cosmic sigLags).filter (qualifies tol e) ↔
      x.1 ∈ cosmic ∧ x.2 ∈ sigLags ∧ residual x.2 x.1 e ≤ tol := by
  rw [List.mem_filter]
  unfold allPairs qualifies
  rw [List.mem_flatMap]
  constructor
  · rintro ⟨⟨c, hc, hm⟩, hq⟩
    obtain ⟨lag, hlag, hx⟩ := List.mem_map.mp hm
    rw [← hx]
    rw [← hx] at hq
    exact ⟨hc, hlag, by simpa using hq⟩
  · rintro ⟨h1, h2, h3⟩
    refine ⟨⟨x.1, h1, ?_⟩, by simpa using h3⟩
    have := List.mem_map_of_mem (fun lag => (x.1, lag)) h2
    simpa using this

/-- Structure of a detected cluster: it comes from an evolutionary event
of the input list and its best match. -/
lemma clusterDetect_mem_elim {cosmic evo : List Event} {sigLags : List ℚ}
    {step : ℚ} {cl : Cluster} (h : cl ∈ clusterDetect cosmic evo sigLags step) :
    cl.evolutionary_event ∈ evo ∧
      bestMatch cosmic sigLags (step / 2) cl.evolutionary_event =
        some (cl.cosmic_event, cl.supporting_lag) := by
  unfold clusterDetect at h
  obtain ⟨e, he, hsome⟩ := List.mem_filterMap.mp h
  rcases hb : bestMatch cosmic sigLags (step / 2) e with _ | cand
  · rw [hb] at hsome
    exact absurd hsome (by simp)
  · rw [hb] at hsome
    simp only [Option.map_some'] at hsome
    injection hsome with h1
    rw [← h1]
    exact ⟨he, hb⟩

/-- Every detected cluster carries an evolutionary event of the input
list. -/
lemma clusterDetect_mem_evo {cosmic evo : List Event} {sigLags : List ℚ}
    {step : ℚ} {cl : Cluster} (h : cl ∈ clusterDetect cosmic evo sigLags step) :
    cl.evolutionary_event ∈ evo :=
  (clusterDetect_mem_elim h).1

/-- With distinct evolutionary events, at most one cluster is produced per
pair of a cosmic and an evolutionary event. -/
lemma clusterDetect_countP_le_one (cosmic : List Event) (sigLags : List ℚ)
    (step : ℚ) (c ev : Event) :
    ∀ evo : List Event, evo.Nodup →
      (clusterDetect cosmic evo sigLags step).countP
        (fun cl => decide (cl.cosmic_event = c ∧ cl.evolutionary_event = ev)) ≤ 1 := by
  intro evo
  induction evo with
  | nil =>
    intro _
    simp [clusterDetect]
  | cons e0 rest ih =>
    intro hnd
    rw [List.nodup_cons] at hnd
    obtain ⟨hne, hnd2⟩ := hnd
    have hrest := ih hnd2
    show ((e0 :: rest).filterMap _).countP _ ≤ 1
    rw [List.filterMap_cons]
    rcases hb : bestMatch cosmic sigLags (step / 2) e0 with _ | cand
    · simp only [Option.map_none']
      exact hrest
    · simp only [Option.map_some']
      rw [List.countP_cons]
      by_cases hp : (decide ((⟨cand.1, e0, e0.timestamp - cand.1.timestamp, cand.2⟩ :
          Cluster).cosmic_event = c ∧
          (⟨cand.1, e0, e0.timestamp - cand.1.timestamp, cand.2⟩ :
            Cluster).evolutionary_event = ev)) = true
      · have hev : ev = e0 := by
          rw [decide_eq_true_iff] at hp
          exact hp.2.symm
        have hzero : (clusterDetect cosmic rest sigLags step).countP
            (fun cl => decide (cl.cosmic_event = c ∧ cl.evolutionary_event = ev)) = 0 := by
          rw [List.countP_eq_zero]
          intro cl hcl
          simp only [decide_eq_true_eq]
          rintro ⟨_, hcle⟩
          have := clusterDetect_mem_evo hcl
          rw [hcle, hev] at this
          exact hne this
        show (clusterDetect cosmic rest sigLags step).countP _ +
          (if _ then 1 else 0) ≤ 1
        rw [hzero, hp]
        simp
      · have hp2 := Bool.eq_false_iff.mpr hp
        show (clusterDetect cosmic rest sigLags step).countP _ +
          (if _ then 1 else 0) ≤ 1
        rw [hp2]
        simpa using hrest

/-- C9: The Cluster Detector produces at most one cluster per qualifying
pair of a cosmic and a distinct evolutionary event, a qualifying pair
being one whose timestamp difference lies within the matched significant
lag plus or minus half the lag step; and every kept cluster has the
smallest timestamp-difference residual among all qualifying candidates of
its evolutionary event, with residual ties broken by the earliest cosmic
event timestamp. -/
theorem cluster_detector_closest_match (cosmic evo : List Event) (sigLags : List ℚ)
    (step : ℚ) (hnd : evo.Nodup) :
    (∀ c ev, (clusterDetect cosmic evo sigLags step).countP
        (fun cl => decide (cl.cosmic_event = c ∧ cl.evolutionary_event = ev)) ≤ 1) ∧
      ∀ cl ∈ clusterDetect cosmic evo sigLags step,
        cl.cosmic_event ∈ cosmic ∧ cl.supporting_lag ∈ sigLags ∧
          residual cl.supporting_lag cl.cosmic_event cl.evolutionary_event ≤ step / 2 ∧
          ∀ c2 ∈ cosmic, ∀ lag2 ∈ sigLags,
            residual lag2 c2 cl.evolutionary_event ≤ step / 2 →
            residual cl.supporting_lag cl.cosmic_event cl.evolutionary_event <
                residual lag2 c2 cl.evolutionary_event ∨
              (residual cl.supporting_lag cl.cosmic_event cl.evolutionary_event =
                  residual lag2 c2 cl.evolutionary_event ∧
                cl.cosmic_event.timestamp ≤ c2.timestamp) := by
  refine ⟨fun c ev => clusterDetect_countP_le_one cosmic sigLags step c ev evo hnd, ?_⟩
  intro cl hcl
  obtain ⟨hev, hb⟩ := clusterDetect_mem_elim hcl
  have hmem := bestMatch_mem hb
  rw [mem_filter_qualifies] at hmem
  obtain ⟨h1, h2, h3⟩ := hmem
  refine ⟨h1, h2, h3, ?_⟩
  intro c2 hc2 lag2 hlag2 hq
  have hx := bestMatch_min hb (c2, lag2) (mem_filter_qualifies.mpr ⟨hc2, hlag2, hq⟩)
  have hx2 : ¬ (residual lag2 c2 cl.evolutionary_event <
      residual cl.supporting_lag cl.cosmic_event cl.evolutionary_event ∨
      (residual lag2 c2 cl.evolutionary_event =
        residual cl.supporting_lag cl.cosmic_event cl.evolutionary_event ∧
        c2.timestamp < cl.cosmic_event.timestamp)) := by
    intro hh
    rw [Bool.eq_false_iff] at hx
    exact hx ((keyLt_iff cl.evolutionary_event (c2, lag2)
      (cl.cosmic_event, cl.supporting_lag)).mpr hh)
  push_neg at hx2
  obtain ⟨ha, hb2⟩ := hx2
  rcases lt_or_eq_of_le ha with h | h
  · left
    exact h
  · right
    exact ⟨h, hb2 h.symm⟩

/-- Concrete cosmic events for the cluster witness. -/
def cosW : List Event := [⟨0, 1⟩, ⟨3, 1⟩]

/-- Concrete evolutionary event for the cluster witness. -/
def evoW : List Event := [⟨10, 1⟩]

/-- Witness for C9 at a concrete event configuration. -/
theorem cluster_detector_closest_match_witness :
    (clusterDetect cosW evoW [10] 2).countP
      (fun cl => decide (cl.cosmic_event = ⟨0, 1⟩ ∧ cl.evolutionary_event = ⟨10, 1⟩)) ≤ 1 :=
  (cluster_detector_closest_match cosW evoW [10] 2 (by simp [evoW])).1 ⟨0, 1⟩ ⟨10, 1⟩

/-! ### Timeline component -/

/-- The rendering succeeds exactly when every tooltip succeeds. -/
lemma renderEvoTooltips_isSome (l : List DisplayEvent) :
    (renderEvoTooltips l).isSome = true ↔
      ∀ d ∈ l, (evoTooltipHtml d).isSome = true := by
  induction l with
  | nil => simp [renderEvoTooltips]
  | cons d t ih =>
    cases hx : evoTooltipHtml d with
    | none =>
      have hr : renderEvoTooltips (d :: t) = none := by
        unfold renderEvoTooltips
        rw [hx]
      rw [hr]
      simp only [Option.isSome_none, Bool.false_eq_true, false_iff]
      intro hall
      have h2 := hall d (List.mem_cons_self d t)
      rw [hx] at h2
      cases h2
    | some s =>
      cases hm : renderEvoTooltips t with
      | none =>
        have hr : renderEvoTooltips (d :: t) = none := by
          unfold renderEvoTooltips
          rw [hx, hm]
        rw [hr]
        simp only [Option.isSome_none, Bool.false_eq_true, false_iff]
        intro hall
        have h2 : ∀ a ∈ t, (evoTooltipHtml a).isSome = true :=
          fun a ha => hall a (List.mem_cons_of_mem d ha)
        have h3 := ih.mpr h2
        rw [hm] at h3
        cases h3
      | some ss =>
        have hr : renderEvoTooltips (d :: t) = some (s :: ss) := by
          unfold renderEvoTooltips
          rw [hx, hm]
        rw [hr]
        simp only [Option.isSome_some, true_iff]
        intro a ha
        rcases List.mem_cons.mp ha with h1 | h1
        · rw [h1, hx]
          rfl
        · exact (ih.mp (by rw [hm]; rfl)) a h1

/-- The tooltip succeeds exactly when affected_taxa is present. -/
lemma evoTooltipHtml_isSome (d : DisplayEvent) :
    (evoTooltipHtml d).isSome = d.affected_taxa.isSome := by
  unfold evoTooltipHtml
  cases d.affected_taxa <;> rfl

/-- C10: The Timeline mouse-over rendering of a supplied evolutionary
event list is total exactly when every event carries a present
affected_taxa sequence; an event without it makes the handler fail. -/
theorem timeline_affected_taxa_totality (evts : List DisplayEvent) :
    (renderEvoTooltips evts).isSome = true ↔
      ∀ d ∈ evts, d.affected_taxa.isSome = true := by
  rw [renderEvoTooltips_isSome]
  constructor
  · intro h d hd
    rw [← evoTooltipHtml_isSome]
    exact h d hd
  · intro h d hd
    rw [evoTooltipHtml_isSome]
    exact h d hd

/-- Display event with a present affected_taxa list. -/
def goodEvt : DisplayEvent := ⟨0, "speciation", 1, "radiation", some (["Trilobita"])⟩

/-- Display event without affected_taxa. -/
def badEvt : DisplayEvent := ⟨0, "extinction", 1, "missing taxa", none⟩

/-- Witness for C10: rendering succeeds on the complete event and fails on
the event without affected_taxa. -/
theorem timeline_affected_taxa_totality_witness :
    (renderEvoTooltips [goodEvt]).isSome = true ∧
      ¬ (renderEvoTooltips [badEvt]).isSome = true := by
  constructor
  · refine (timeline_affected_taxa_totality [goodEvt]).mpr ?_
    intro d hd
    rw [List.mem_singleton] at hd
    subst hd
    rfl
  · intro h
    have h2 := (timeline_affected_taxa_totality [badEvt]).mp h badEvt (by simp)
    have h3 : badEvt.affected_taxa = none := rfl
    rw [h3] at h2
    cases h2

end FtrtCambrian
